import Mathlib

/-
Verification of the pair-trading backtesting engine.

This file gives a shallow embedding of the core of the repository
(point-in-time data view, portfolio state machine, execution model,
commission models, round-trip matcher, metrics guard) and proves the
spec's claims about it.

Conventions of the embedding:
- Python floats are embedded as exact rationals (ℚ).  The claims under
  study state exact algebraic formulas (share sizing, commission
  formulas, P&L attribution); floating-point rounding is not their
  subject.
- Calendar dates are embedded as integers (ℤ), ordered as dates are.
- Python dicts that are used as insertion-ordered key/value maps
  (Portfolio.positions, Portfolio.pair_positions, price dicts) are
  embedded as association lists in insertion order.
- Raising an exception is embedded either as `Except` or, where a claim
  speaks about the state left behind by a failed call, as returning the
  pre-call state together with an `Option Err`.
-/

namespace PairTrading

/-- Engine-level errors (ptengine.core.exceptions / ptdata.core.exceptions).
Only the payloads that the claims compare are carried. -/
inductive Err where
  | insufficientCapital (required available : ℚ) (symbol : String)
  | lookAheadBias (accessDate dataDate : ℤ)
  | executionError (symbol : String)
  | pairNotFound (pairId : String)
  | backtestError
deriving Repr, DecidableEq

/-- Trade side (ptengine.core.types.Side). -/
inductive Side where
  | LONG
  | SHORT
deriving Repr, DecidableEq

/-- Type of a pair signal (ptengine.core.types.SignalType). -/
inductive SignalType where
  | OPEN_PAIR
  | CLOSE_PAIR
deriving Repr, DecidableEq

/-- An executed trade (ptengine.core.types.Trade).  The date is a day
number; `pair_id` is optional as in the source. -/
structure Trade where
  date : ℤ
  symbol : String
  side : Side
  shares : ℚ
  price : ℚ
  commission : ℚ
  pair_id : Option String
deriving Repr, DecidableEq

/-- Validity conditions enforced by Trade.__post_init__ in the source. -/
def Trade.valid (t : Trade) : Prop :=
  0 < t.shares ∧ 0 < t.price ∧ 0 ≤ t.commission

instance (t : Trade) : Decidable t.valid := by
  unfold Trade.valid; infer_instance

/-- Trade.notional: shares * price. -/
def Trade.notional (t : Trade) : ℚ := t.shares * t.price

/-- Trade.total_cost: notional + commission. -/
def Trade.total_cost (t : Trade) : ℚ := t.notional + t.commission

/-- Trade.signed_shares: +shares for LONG, -shares for SHORT. -/
def Trade.signed_shares (t : Trade) : ℚ :=
  if t.side = Side.LONG then t.shares else -t.shares

/-- A per-symbol position (ptengine.core.types.Position). -/
structure Position where
  symbol : String
  shares : ℚ
  avg_entry_price : ℚ
  current_price : ℚ
  realized_pnl : ℚ
deriving Repr, DecidableEq

/-- Position.is_flat. -/
def Position.is_flat (p : Position) : Prop := p.shares = 0

instance (p : Position) : Decidable p.is_flat := by
  unfold Position.is_flat; infer_instance

/-- Position.market_value: shares * current_price. -/
def Position.market_value (p : Position) : ℚ := p.shares * p.current_price

/-- Position.cost_basis: shares * avg_entry_price. -/
def Position.cost_basis (p : Position) : ℚ := p.shares * p.avg_entry_price

/-- Position.add_shares (core/types.py lines 180-225), returning the
updated position together with the realized P&L of the transaction.
The branch structure mirrors the source exactly: open-when-flat,
average-in on same sign, realize on opposite sign with a flip when the
incoming size exceeds the held size. -/
def Position.add_shares (p : Position) (shares price : ℚ) : Position × ℚ :=
  if p.shares = 0 then
    ({ p with shares := shares, avg_entry_price := price }, 0)
  else if (0 < p.shares ∧ 0 < shares) ∨ (p.shares < 0 ∧ shares < 0) then
    let total_cost := p.cost_basis + shares * price
    let new_shares := p.shares + shares
    ({ p with
        shares := new_shares,
        avg_entry_price := if new_shares ≠ 0 then total_cost / new_shares else 0 },
      0)
  else
    let closing_shares := min |shares| |p.shares|
    let realized :=
      if 0 < p.shares then closing_shares * (price - p.avg_entry_price)
      else closing_shares * (p.avg_entry_price - price)
    let remaining_new := |shares| - closing_shares
    if 0 < remaining_new then
      ({ p with
          shares := if 0 < shares then remaining_new else -remaining_new,
          avg_entry_price := price,
          realized_pnl := p.realized_pnl + realized },
        realized)
    else
      let ns := p.shares + shares
      ({ p with
          shares := ns,
          avg_entry_price := if ns = 0 then 0 else p.avg_entry_price,
          realized_pnl := p.realized_pnl + realized },
        realized)

/-- A pair position linking two legs (ptengine.core.types.PairPosition). -/
structure PairPosition where
  pair_id : String
  long_position : Position
  short_position : Position
  hedge_ratio : ℚ
  entry_date : ℤ
deriving Repr, DecidableEq

/-- PairPosition.market_value: sum of both legs. -/
def PairPosition.market_value (pp : PairPosition) : ℚ :=
  pp.long_position.market_value + pp.short_position.market_value

/-- Association-list lookup with decidable string keys; embeds Python
dict access `d[k]` / `d.get(k)`. -/
def lookupA {α : Type} (l : List (String × α)) (k : String) : Option α :=
  match l with
  | [] => none
  | (k', v) :: rest => if k' = k then some v else lookupA rest k

/-- Association-list update; embeds Python dict assignment `d[k] = v`
(replaces in place when the key exists, appends otherwise, preserving
insertion order as CPython dicts do). -/
def setA {α : Type} (l : List (String × α)) (k : String) (v : α) :
    List (String × α) :=
  match l with
  | [] => [(k, v)]
  | (k', v') :: rest =>
      if k' = k then (k, v) :: rest else (k', v') :: setA rest k v

/-- Association-list deletion; embeds Python `del d[k]`. -/
def delA {α : Type} (l : List (String × α)) (k : String) :
    List (String × α) :=
  l.filter (fun kv => kv.1 ≠ k)

/-- The portfolio state (ptengine.portfolio.portfolio.Portfolio). -/
structure Portfolio where
  cash : ℚ
  positions : List (String × Position)
  pair_positions : List (String × PairPosition)
  cumulative_commission : ℚ
deriving Repr, DecidableEq

/-- A freshly constructed / reset portfolio with the given initial
capital: cash = initial_capital, no positions, no commission. -/
def Portfolio.init (initial_capital : ℚ) : Portfolio :=
  { cash := initial_capital
    positions := []
    pair_positions := []
    cumulative_commission := 0 }

/-- Portfolio.equity: cash plus market value of all individual and pair
positions. -/
def Portfolio.equity (pf : Portfolio) : ℚ :=
  pf.cash + (pf.positions.map (fun kv => kv.2.market_value)).sum
    + (pf.pair_positions.map (fun kv => kv.2.market_value)).sum

/-- Portfolio.execute_trade (portfolio.py lines 128-171).  The cash
check for LONG trades happens before any mutation, so on failure the
state returned is the input state together with the error; on success
the position is updated through `Position.add_shares` and flat
positions are deleted from the map.  The second component is the
realized P&L returned by the source. -/
def Portfolio.execute_trade (pf : Portfolio) (t : Trade) :
    Portfolio × ℚ × Option Err :=
  if t.side = Side.LONG ∧ pf.cash < t.total_cost then
    (pf, 0, some (Err.insufficientCapital t.total_cost pf.cash t.symbol))
  else
    let pos0 :=
      match lookupA pf.positions t.symbol with
      | some p => p
      | none =>
          { symbol := t.symbol, shares := 0, avg_entry_price := 0,
            current_price := t.price, realized_pnl := 0 }
    let res := pos0.add_shares t.signed_shares t.price
    let cash1 :=
      if t.side = Side.LONG then pf.cash - t.total_cost
      else pf.cash + t.notional - t.commission
    let positions1 :=
      if res.1.shares = 0 then delA pf.positions t.symbol
      else setA pf.positions t.symbol res.1
    ({ pf with
        cash := cash1,
        positions := positions1,
        cumulative_commission := pf.cumulative_commission + t.commission },
      res.2, none)

/-- Portfolio.open_pair (portfolio.py lines 173-228).  The cash check
covers only the long leg's total cost; the pair is stored under its id,
silently replacing any pair already stored there. -/
def Portfolio.open_pair (pf : Portfolio) (pair_id : String)
    (long_trade short_trade : Trade) (hedge_ratio : ℚ) (entry_date : ℤ) :
    Except Err Portfolio :=
  if pf.cash < long_trade.total_cost then
    .error (Err.insufficientCapital long_trade.total_cost pf.cash
      long_trade.symbol)
  else
    let long_position : Position :=
      { symbol := long_trade.symbol, shares := long_trade.shares,
        avg_entry_price := long_trade.price,
        current_price := long_trade.price, realized_pnl := 0 }
    let short_position : Position :=
      { symbol := short_trade.symbol, shares := -short_trade.shares,
        avg_entry_price := short_trade.price,
        current_price := short_trade.price, realized_pnl := 0 }
    let pp : PairPosition :=
      { pair_id := pair_id, long_position := long_position,
        short_position := short_position, hedge_ratio := hedge_ratio,
        entry_date := entry_date }
    .ok { pf with
      pair_positions := setA pf.pair_positions pair_id pp,
      cash := pf.cash - long_trade.total_cost
        + short_trade.notional - short_trade.commission,
      cumulative_commission := pf.cumulative_commission
        + long_trade.commission + short_trade.commission }

/-- Portfolio.close_pair (portfolio.py lines 230-263). -/
def Portfolio.close_pair (pf : Portfolio) (pair_id : String)
    (long_trade short_trade : Trade) : Except Err (Portfolio × ℚ) :=
  match lookupA pf.pair_positions pair_id with
  | none => .error (Err.pairNotFound pair_id)
  | some pp =>
      let longRes := pp.long_position.add_shares (-long_trade.shares)
        long_trade.price
      let shortRes := pp.short_position.add_shares short_trade.shares
        short_trade.price
      .ok ({ pf with
        cash := pf.cash + long_trade.notional - long_trade.commission
          - short_trade.total_cost,
        cumulative_commission := pf.cumulative_commission
          + long_trade.commission + short_trade.commission,
        pair_positions := delA pf.pair_positions pair_id },
        longRes.2 + shortRes.2)

/-- IBKR tiered commission parameters (commission/models.py lines
64-81).  Defaults in `ibkrDefault` below. -/
structure IBKRTieredCommission where
  rate_per_share : ℚ
  minimum : ℚ
  maximum_pct : ℚ
  exchange_fee : ℚ
deriving Repr, DecidableEq

/-- IBKRTieredCommission.calculate (commission/models.py lines 83-101):
base per-share commission, plus per-share exchange fee, then the
minimum is applied, then the maximum-percentage-of-notional cap. -/
def IBKRTieredCommission.calculate (m : IBKRTieredCommission)
    (shares price : ℚ) : ℚ :=
  let abs_shares := |shares|
  let notional := abs_shares * price
  let commission := abs_shares * m.rate_per_share
  let commission := commission + abs_shares * m.exchange_fee
  let commission := max commission m.minimum
  let max_commission := notional * m.maximum_pct
  min commission max_commission

/-- The default IBKR tiered parameters from the source: $0.0035/share,
$0.35 minimum, 1% maximum of trade value, $0.0003/share exchange fee. -/
def ibkrDefault : IBKRTieredCommission :=
  { rate_per_share := 35 / 10000
    minimum := 35 / 100
    maximum_pct := 1 / 100
    exchange_fee := 3 / 10000 }

/-- Modelled from the spec's words for claim C6 (spec 4.3): the tiered
commission as the spec states it, `clamp( max(min, rate*|s|) +
exchange_fee*|s|, 0, max_pct * |s| * price )`, with the minimum applied
to the per-share rate component before the exchange fee is added.  Used
only to compare the spec's formula against the source formula. -/
def ibkrSpecFormula (m : IBKRTieredCommission) (shares price : ℚ) : ℚ :=
  min (max (max m.minimum (m.rate_per_share * |shares|)
    + m.exchange_fee * |shares|) 0) (m.maximum_pct * |shares| * price)

/-- Modelled from the amended claim for C6: same clamp, but with the
minimum applied after the exchange fee is added to the per-share rate
component. -/
def ibkrAmendedFormula (m : IBKRTieredCommission) (shares price : ℚ) : ℚ :=
  min (max (max m.minimum
    (m.rate_per_share * |shares| + m.exchange_fee * |shares|)) 0)
    (m.maximum_pct * |shares| * price)

/-- One row of the price table.  The PIT wrapper and the runner only
inspect the date column, the symbol column and the configured price
column, so a row is embedded as those three fields; the remaining OHLCV
columns are carried by no claim. -/
structure Row where
  symbol : String
  date : ℤ
  price : ℚ
deriving Repr, DecidableEq

/-- The point-in-time view (ptdata.validation.lookahead.
PointInTimeDataFrame): an underlying table plus a reference date.  It
is a value; the Python object copies its DataFrame on construction and
is never mutated afterwards. -/
structure PointInTimeDataFrame where
  df : List Row
  reference_date : ℤ
deriving Repr, DecidableEq

/-- PointInTimeDataFrame.get_data (lookahead.py lines 92-106): the rows
of the underlying table whose date is at most the reference date, in
table order. -/
def PointInTimeDataFrame.get_data (pit : PointInTimeDataFrame) : List Row :=
  pit.df.filter (fun r => r.date ≤ pit.reference_date)

/-- PointInTimeDataFrame.advance_to (lookahead.py lines 131-157):
raises LookAheadBiasError when moving backward, otherwise returns a
fresh view over the same table with the new reference date. -/
def PointInTimeDataFrame.advance_to (pit : PointInTimeDataFrame)
    (new_date : ℤ) : Except Err PointInTimeDataFrame :=
  if new_date < pit.reference_date then
    .error (Err.lookAheadBias pit.reference_date new_date)
  else
    .ok { df := pit.df, reference_date := new_date }

/-- A pair signal (ptengine.core.types.PairSignal).  Validation in
__post_init__ (distinct symbols, positive hedge ratio) is carried as
hypotheses where a claim needs it. -/
structure PairSignal where
  signal_type : SignalType
  long_symbol : String
  short_symbol : String
  hedge_ratio : ℚ
  pair_id : Option String
deriving Repr, DecidableEq

/-- PairSignal.get_pair_id: the explicit id, or the generated
long_short concatenation. -/
def PairSignal.get_pair_id (s : PairSignal) : String :=
  match s.pair_id with
  | some pid => pid
  | none => s.long_symbol ++ "_" ++ s.short_symbol

/-- ClosePriceExecution.execute_pair_signal (execution/simple.py lines
36-155), with the commission model as a function argument.  OPEN sizes
the legs from capital_per_pair and the hedge ratio and calls
Portfolio.open_pair; CLOSE rebuilds reversing trades from the held leg
sizes and calls Portfolio.close_pair.  Missing prices raise
ExecutionError before anything else. -/
def execute_pair_signal (cm : ℚ → ℚ → ℚ) (signal : PairSignal)
    (current_date : ℤ) (prices : List (String × ℚ)) (pf : Portfolio)
    (capital_per_pair : ℚ) : Except Err (Portfolio × List Trade) :=
  let pair_id := signal.get_pair_id
  match lookupA prices signal.long_symbol with
  | none => .error (Err.executionError signal.long_symbol)
  | some long_price =>
    match lookupA prices signal.short_symbol with
    | none => .error (Err.executionError signal.short_symbol)
    | some short_price =>
      match signal.signal_type with
      | SignalType.OPEN_PAIR =>
          let long_notional := capital_per_pair / (1 + signal.hedge_ratio)
          let long_shares := long_notional / long_price
          let short_notional := long_notional * signal.hedge_ratio
          let short_shares := short_notional / short_price
          let long_trade : Trade :=
            { date := current_date, symbol := signal.long_symbol,
              side := Side.LONG, shares := long_shares,
              price := long_price,
              commission := cm long_shares long_price,
              pair_id := some pair_id }
          let short_trade : Trade :=
            { date := current_date, symbol := signal.short_symbol,
              side := Side.SHORT, shares := short_shares,
              price := short_price,
              commission := cm short_shares short_price,
              pair_id := some pair_id }
          match pf.open_pair pair_id long_trade short_trade
              signal.hedge_ratio current_date with
          | .error e => .error e
          | .ok pf1 => .ok (pf1, [long_trade, short_trade])
      | SignalType.CLOSE_PAIR =>
          match lookupA pf.pair_positions pair_id with
          | none => .error (Err.pairNotFound pair_id)
          | some pp =>
              let long_shares := |pp.long_position.shares|
              let short_shares := |pp.short_position.shares|
              let long_trade : Trade :=
                { date := current_date, symbol := signal.long_symbol,
                  side := Side.SHORT, shares := long_shares,
                  price := long_price,
                  commission := cm long_shares long_price,
                  pair_id := some pair_id }
              let short_trade : Trade :=
                { date := current_date, symbol := signal.short_symbol,
                  side := Side.LONG, shares := short_shares,
                  price := short_price,
                  commission := cm short_shares short_price,
                  pair_id := some pair_id }
              match pf.close_pair pair_id long_trade short_trade with
              | .error e => .error e
              | .ok res => .ok (res.1, [long_trade, short_trade])

/-- One step of the execute_weight_signal loop body for a single
(symbol, weight) entry (execution/simple.py lines 187-225):
target shares from the fixed equity snapshot, diff against the live
position, skip below 0.01 shares, otherwise build and execute a trade.
Returns the updated portfolio, optionally the emitted trade, and any
error raised by Portfolio.execute_trade. -/
def weightStep (cm : ℚ → ℚ → ℚ) (target_equity : ℚ) (current_date : ℤ)
    (prices : List (String × ℚ)) (pf : Portfolio) (symbol : String)
    (target_weight : ℚ) : Portfolio × Option Trade × Option Err :=
  let price := (lookupA prices symbol).getD 0
  let target_value := target_equity * target_weight
  let target_shares := target_value / price
  let current_shares :=
    match lookupA pf.positions symbol with
    | some p => p.shares
    | none => 0
  let shares_diff := target_shares - current_shares
  if |shares_diff| < 1 / 100 then (pf, none, none)
  else
    let trade : Trade :=
      { date := current_date, symbol := symbol,
        side := if 0 < shares_diff then Side.LONG else Side.SHORT,
        shares := |shares_diff|, price := price,
        commission := cm |shares_diff| price, pair_id := none }
    let res := pf.execute_trade trade
    match res.2.2 with
    | some e => (res.1, none, some e)
    | none => (res.1, some trade, none)

/-- The loop of execute_weight_signal over the weight entries.  A raise
from Portfolio.execute_trade propagates: the portfolio keeps the
mutations of the earlier iterations and the local trades list is lost
to the caller, as in the source. -/
def weightLoop (cm : ℚ → ℚ → ℚ) (target_equity : ℚ) (current_date : ℤ)
    (prices : List (String × ℚ)) (pf : Portfolio)
    (weights : List (String × ℚ)) : Portfolio × List Trade × Option Err :=
  match weights with
  | [] => (pf, [], none)
  | (symbol, w) :: rest =>
      let step := weightStep cm target_equity current_date prices pf symbol w
      match step.2.2 with
      | some e => (step.1, [], some e)
      | none =>
          let tail := weightLoop cm target_equity current_date prices
            step.1 rest
          match tail.2.2 with
          | some e => (tail.1, [], some e)
          | none =>
              (tail.1,
                (match step.2.1 with
                 | some t => t :: tail.2.1
                 | none => tail.2.1),
                none)

/-- ClosePriceExecution.execute_weight_signal (execution/simple.py
lines 157-227): first every symbol of the weight mapping is checked
against the price dict (ExecutionError on the first missing one, before
any trade); then the equity snapshot is taken once and the loop runs. -/
def execute_weight_signal (cm : ℚ → ℚ → ℚ)
    (weights : List (String × ℚ)) (current_date : ℤ)
    (prices : List (String × ℚ)) (pf : Portfolio) :
    Portfolio × List Trade × Option Err :=
  match weights.find? (fun sw => (lookupA prices sw.1).isNone) with
  | some sw => (pf, [], some (Err.executionError sw.1))
  | none =>
      let target_equity := pf.equity
      weightLoop cm target_equity current_date prices pf weights

/-- Ascending insertion of a date into a sorted list (helper for the
`sorted(dates)` call in BacktestRunner._get_trading_dates). -/
def insertSorted (d : ℤ) : List ℤ → List ℤ
  | [] => [d]
  | h :: t => if d ≤ h then d :: h :: t else h :: insertSorted d t

/-- Ascending sort of dates. -/
def sortDates (l : List ℤ) : List ℤ := l.foldr insertSorted []

/-- BacktestRunner._get_trading_dates (backtest/runner.py lines
130-153): sorted unique dates of the full underlying table restricted
to the configured range. -/
def getTradingDates (df : List Row) (start_date end_date : ℤ) : List ℤ :=
  (sortDates (df.map (fun r => r.date)).dedup).filter
    (fun d => start_date ≤ d ∧ d ≤ end_date)

/-- BacktestRunner._get_current_prices (backtest/runner.py lines
189-220) applied to the visible data: for each symbol in order of first
appearance, the chosen price column of the last visible row for that
symbol. -/
def currentPrices (data : List Row) : List (String × ℚ) :=
  (data.map (fun r => r.symbol)).dedup.filterMap (fun s =>
    ((data.filter (fun r => r.symbol = s)).getLast?).map
      (fun r => (s, r.price)))

/-- The runner's per-day loop (backtest/runner.py lines 96-110)
restricted to its observable data flow toward execution: for each
trading date, the price vector handed to the strategy and the execution
model is computed from the current PIT, and only afterwards is the PIT
advanced to that date.  Returns the per-day price vectors. -/
def runnerLoop (pit : PointInTimeDataFrame) (dates : List ℤ) :
    Except Err (List (ℤ × List (String × ℚ))) :=
  match dates with
  | [] => .ok []
  | d :: rest =>
      let prices := currentPrices pit.get_data
      match pit.advance_to d with
      | .error e => .error e
      | .ok pit1 =>
          match runnerLoop pit1 rest with
          | .error e => .error e
          | .ok l => .ok ((d, prices) :: l)

/-- BacktestRunner.run's price dataflow (backtest/runner.py lines
66-110): extract the trading dates, fail when none, then run the loop
starting from the supplied PIT. -/
def runnerPriceVectors (df : List Row) (start_date end_date ref0 : ℤ) :
    Except Err (List (ℤ × List (String × ℚ))) :=
  let dates := getTradingDates df start_date end_date
  if dates.isEmpty then .error Err.backtestError
  else runnerLoop { df := df, reference_date := ref0 } dates

/-- Replay state per symbol used by match_round_trips
(analysis/trade_analysis.py lines 141-180).  Optional fields embed dict
keys that may be absent. -/
structure ReplayPos where
  shares : ℚ
  avg_price : ℚ
  side : Option Side
  entry_date : Option ℤ
  commission : Option ℚ
  exit_price : Option ℚ
  exit_date : Option ℤ
  exit_commission : Option ℚ
  closed : Bool
deriving Repr, DecidableEq

/-- The fresh replay entry `{"shares": 0.0, "avg_price": 0.0, "side":
None}`. -/
def ReplayPos.initial : ReplayPos :=
  { shares := 0, avg_price := 0, side := none, entry_date := none,
    commission := none, exit_price := none, exit_date := none,
    exit_commission := none, closed := false }

/-- One trade applied to a replay entry (trade_analysis.py lines
152-180): open when flat, average in on the same side, otherwise close
up to the held size and record the exit when fully closing. -/
def replayStep (pos : ReplayPos) (t : Trade) : ReplayPos :=
  if pos.shares = 0 then
    { pos with
        shares := t.shares, avg_price := t.price,
        side := some t.side, entry_date := some t.date,
        commission := some t.commission }
  else if pos.side = some t.side then
    let total_cost := pos.shares * pos.avg_price + t.shares * t.price
    let ns := pos.shares + t.shares
    { pos with
        shares := ns, avg_price := total_cost / ns,
        commission := some (pos.commission.getD 0 + t.commission) }
  else
    let closing := min t.shares pos.shares
    let pos1 :=
      if closing = pos.shares then
        { pos with
            exit_price := some t.price, exit_date := some t.date,
            exit_commission := some t.commission, closed := true }
      else pos
    { pos1 with shares := pos.shares - closing }

/-- Replay of one pair group's trades, building the per-symbol state
dict in order of first appearance. -/
def replayTrades (ts : List Trade) : List (String × ReplayPos) :=
  ts.foldl (fun acc t =>
    let pos := (lookupA acc t.symbol).getD ReplayPos.initial
    setA acc t.symbol (replayStep pos t)) []

/-- Stable ascending insertion by trade date (Python sorted is stable). -/
def insertTradeByDate (t : Trade) : List Trade → List Trade
  | [] => [t]
  | h :: r => if h.date ≤ t.date then h :: insertTradeByDate t r
      else t :: h :: r

/-- Stable sort of a group's trades by date. -/
def sortTradesByDate (ts : List Trade) : List Trade :=
  ts.foldl (fun acc t => insertTradeByDate t acc) []

/-- Append a trade to its pair group, preserving first-seen group
order (the Python defaultdict-style grouping). -/
def addToGroup (groups : List (String × List Trade)) (pid : String)
    (t : Trade) : List (String × List Trade) :=
  match groups with
  | [] => [(pid, [t])]
  | (k, g) :: rest =>
      if k = pid then (k, g ++ [t]) :: rest
      else (k, g) :: addToGroup rest pid t

/-- Group the trades of a log by non-null pair_id (trade_analysis.py
lines 126-133). -/
def groupByPair (ts : List Trade) : List (String × List Trade) :=
  ts.foldl (fun acc t =>
    match t.pair_id with
    | none => acc
    | some pid => addToGroup acc pid t) []

/-- A matched round trip (analysis/trade_analysis.py RoundTrip). -/
structure RoundTrip where
  pair_id : String
  entry_date : ℤ
  exit_date : Option ℤ
  long_symbol : String
  short_symbol : String
  long_entry_price : ℚ
  short_entry_price : ℚ
  long_exit_price : ℚ
  short_exit_price : ℚ
  long_shares : ℚ
  short_shares : ℚ
  pnl : ℚ
  holding_days : ℤ
  return_pct : ℚ
  commission : ℚ
  is_open : Bool
deriving Repr, DecidableEq

/-- Python truthiness-based `and` on numbers: returns the left operand
when it is falsy (zero), the right one otherwise. -/
def pyAnd (a b : ℚ) : ℚ := if a = 0 then a else b

/-- The share-count fallback expression of trade_analysis.py lines
222-231: the replayed share count if non-zero, otherwise a
reconstruction from the accumulated commission at the hard-coded
0.005/share rate if a non-zero commission was recorded, otherwise the
constant 100.  (Parses as `pos.get("shares", 0) or ((avg and exitp and
abs(comm / 0.005 / avg)) if comm else 100)`.) -/
def fallbackShares (pos : ReplayPos) (exitPrice : ℚ) : ℚ :=
  if pos.shares ≠ 0 then pos.shares
  else
    match pos.commission with
    | some c =>
        if c ≠ 0 then
          pyAnd pos.avg_price (pyAnd exitPrice |c / (5 / 1000) / pos.avg_price|)
        else 100
    | none => 100

/-- The tail of buildRoundTrip (trade_analysis.py lines 219-284):
share-count determination (fallback then reconstruction from entry-side
trades), P&L, commission total, entry notional, return and holding
days. -/
def finishRoundTrip (pid : String) (trades : List Trade)
    (long_sym short_sym : String) (long_pos short_pos : ReplayPos)
    (entry_date : ℤ) (exit_date : Option ℤ)
    (long_exit short_exit : ℚ) (is_open : Bool) : RoundTrip :=
  let long_shares0 := fallbackShares long_pos long_exit
  let short_shares0 := fallbackShares short_pos short_exit
  let long_entry_trades := trades.filter
    (fun t => t.symbol = long_sym ∧ t.side = Side.LONG)
  let short_entry_trades := trades.filter
    (fun t => t.symbol = short_sym ∧ t.side = Side.SHORT)
  let reconstruct := ¬long_entry_trades.isEmpty ∧ ¬short_entry_trades.isEmpty
  let long_shares := if reconstruct then
    (long_entry_trades.map (fun t => t.shares)).sum else long_shares0
  let short_shares := if reconstruct then
    (short_entry_trades.map (fun t => t.shares)).sum else short_shares0
  let long_pnl := long_shares * (long_exit - long_pos.avg_price)
  let short_pnl := short_shares * (short_pos.avg_price - short_exit)
  let total_commission := long_pos.commission.getD 0
    + short_pos.commission.getD 0 + long_pos.exit_commission.getD 0
    + short_pos.exit_commission.getD 0
  let total_pnl := long_pnl + short_pnl - total_commission
  let entry_notional := long_shares * long_pos.avg_price
    + short_shares * short_pos.avg_price
  let return_pct := if 0 < entry_notional then total_pnl / entry_notional
    else 0
  let holding_days :=
    match exit_date with
    | some e => e - entry_date
    | none => 0
  { pair_id := pid, entry_date := entry_date, exit_date := exit_date,
    long_symbol := long_sym, short_symbol := short_sym,
    long_entry_price := long_pos.avg_price,
    short_entry_price := short_pos.avg_price,
    long_exit_price := long_exit, short_exit_price := short_exit,
    long_shares := long_shares, short_shares := short_shares,
    pnl := total_pnl, holding_days := holding_days,
    return_pct := return_pct, commission := total_commission,
    is_open := is_open }

/-- Build the round trip of one pair group (trade_analysis.py lines
137-284): sort by date, replay, and when the group traded exactly two
symbols with known entries and either both legs closed or an open-trip
mark-to-market is requested, emit the RoundTrip; otherwise skip. -/
def buildRoundTrip (pid : String) (groupTrades : List Trade)
    (final_prices : Option (List (String × ℚ))) (include_open : Bool)
    (end_date : Option ℤ) : Option RoundTrip :=
  let trades := sortTradesByDate groupTrades
  match replayTrades trades with
  | [(sym1, pos1), (sym2, pos2)] =>
      let longFirst := pos1.side = some Side.LONG
      let long_sym := if longFirst then sym1 else sym2
      let short_sym := if longFirst then sym2 else sym1
      let long_pos := if longFirst then pos1 else pos2
      let short_pos := if longFirst then pos2 else pos1
      match long_pos.entry_date, short_pos.entry_date with
      | some le, some se =>
          let entry_date := max le se
          let is_closed := long_pos.closed && short_pos.closed
          let hasFinal : Bool :=
            match final_prices with
            | some l => !l.isEmpty
            | none => false
          if is_closed then
            let exit_date := max (long_pos.exit_date.getD entry_date)
              (short_pos.exit_date.getD entry_date)
            some (finishRoundTrip pid trades long_sym short_sym long_pos
              short_pos entry_date (some exit_date)
              (long_pos.exit_price.getD 0) (short_pos.exit_price.getD 0)
              false)
          else if include_open && hasFinal then
            let fp := final_prices.getD []
            some (finishRoundTrip pid trades long_sym short_sym long_pos
              short_pos entry_date end_date
              ((lookupA fp long_sym).getD long_pos.avg_price)
              ((lookupA fp short_sym).getD short_pos.avg_price)
              true)
          else none
      | _, _ => none
  | _ => none

/-- match_round_trips (trade_analysis.py lines 95-286). -/
def match_round_trips (log : List Trade)
    (final_prices : Option (List (String × ℚ))) (include_open : Bool)
    (end_date : Option ℤ) : List RoundTrip :=
  if log.isEmpty then []
  else (groupByPair log).filterMap
    (fun g => buildRoundTrip g.1 g.2 final_prices include_open end_date)

/-- TradeLog.num_trades: length of the trade list. -/
def tradeLogNumTrades (log : List Trade) : ℕ := log.length

/-- TradeLog.total_commission: sum of the trades' commissions. -/
def tradeLogTotalCommission (log : List Trade) : ℚ :=
  (log.map (fun t => t.commission)).sum

/-- ptengine.core.constants.MIN_TRADING_DAYS_FOR_METRICS. -/
def MIN_TRADING_DAYS_FOR_METRICS : ℕ := 20

/-- The metrics container (results/metrics.py PerformanceMetrics). -/
structure PerformanceMetrics where
  total_return : ℚ
  annualized_return : ℚ
  sharpe_ratio : ℚ
  max_drawdown : ℚ
  max_drawdown_duration : ℤ
  volatility : ℚ
  win_rate : ℚ
  profit_factor : ℚ
  num_trades : ℕ
  avg_trade_return : ℚ
  total_commission : ℚ
deriving Repr, DecidableEq

/-- results/metrics.py _empty_metrics (lines 238-252): every metric
field zero, while num_trades and total_commission carry the values
passed in from the trade log. -/
def emptyMetrics (num_trades : ℕ) (total_commission : ℚ) :
    PerformanceMetrics :=
  { total_return := 0, annualized_return := 0, sharpe_ratio := 0,
    max_drawdown := 0, max_drawdown_duration := 0, volatility := 0,
    win_rate := 0, profit_factor := 0, num_trades := num_trades,
    avg_trade_return := 0, total_commission := total_commission }

/-- results/metrics.py calculate_metrics (lines 72-143).  The guard is
the source's: below MIN_TRADING_DAYS_FOR_METRICS equity points it
returns _empty_metrics(trade_log.num_trades,
trade_log.total_commission) without raising.  The branch for longer
curves computes floating-point statistics (square roots, fractional
powers) that have no exact embedding and that no claim under study
evaluates; it is taken as a parameter, so the theorems below hold for
every possible such branch. -/
def calculate_metrics
    (longBranch : List (ℤ × ℚ) → List Trade → ℚ → PerformanceMetrics)
    (equity_curve : List (ℤ × ℚ)) (trade_log : List Trade)
    (initial_capital : ℚ) : PerformanceMetrics :=
  if equity_curve.length < MIN_TRADING_DAYS_FOR_METRICS then
    emptyMetrics (tradeLogNumTrades trade_log)
      (tradeLogTotalCommission trade_log)
  else longBranch equity_curve trade_log initial_capital

/-- The position that Portfolio.execute_trade operates on: the held
position for the trade's symbol, or the freshly created flat one
(portfolio.py lines 147-153). -/
def tradePosBefore (pf : Portfolio) (t : Trade) : Position :=
  (lookupA pf.positions t.symbol).getD
    { symbol := t.symbol, shares := 0, avg_entry_price := 0,
      current_price := t.price, realized_pnl := 0 }

/-- The spec-side description of the single trade emitted for one
(symbol, weight) entry, with the equity snapshot and the held positions
both taken from one fixed portfolio (claim C9: "all per-symbol target
share counts are computed from the single equity snapshot taken before
the first trade of the signal").  Compared against the loop of
execute_weight_signal by refinement. -/
def weightTradeSpec (cm : ℚ → ℚ → ℚ) (current_date : ℤ)
    (prices : List (String × ℚ)) (equity0 : ℚ)
    (positions0 : List (String × Position)) (sw : String × ℚ) :
    Option Trade :=
  let price := (lookupA prices sw.1).getD 0
  let target_shares := equity0 * sw.2 / price
  let current_shares :=
    match lookupA positions0 sw.1 with
    | some p => p.shares
    | none => 0
  let shares_diff := target_shares - current_shares
  if |shares_diff| < 1 / 100 then none
  else
    some { date := current_date
           symbol := sw.1
           side := if 0 < shares_diff then Side.LONG else Side.SHORT
           shares := |shares_diff|
           price := price
           commission := cm |shares_diff| price
           pair_id := none }

/-- The invariant of claim C8: the per-symbol positions mapping holds
no flat position. -/
def NoFlat (pf : Portfolio) : Prop :=
  ∀ kv ∈ pf.positions, kv.2.shares ≠ 0

/-- A sequence of execute_trade calls folded over a portfolio.  A call
that raises leaves the portfolio unchanged (the cash check precedes all
mutation), so the fold keeps the returned state in both cases. -/
def runTrades (pf : Portfolio) (ts : List Trade) : Portfolio :=
  ts.foldl (fun acc t => (acc.execute_trade t).1) pf

/-- The S3-style concrete scenario of claim C5: open long A / short B
at prices 100/100 with capital_per_pair 10000, hedge ratio 1 and zero
commission. -/
def c5Open : Except Err (Portfolio × List Trade) :=
  execute_pair_signal (fun _ _ => 0)
    { signal_type := SignalType.OPEN_PAIR, long_symbol := "A",
      short_symbol := "B", hedge_ratio := 1, pair_id := some "P" }
    1 [("A", 100), ("B", 100)] (Portfolio.init 100000) 10000

/-- The portfolio and trades after the C5 open (the default is never
used; the open succeeds). -/
def c5OpenRes : Portfolio × List Trade :=
  c5Open.toOption.getD (Portfolio.init 0, [])

/-- Closing the C5 pair one day later at prices 110/100. -/
def c5Close : Except Err (Portfolio × List Trade) :=
  execute_pair_signal (fun _ _ => 0)
    { signal_type := SignalType.CLOSE_PAIR, long_symbol := "A",
      short_symbol := "B", hedge_ratio := 1, pair_id := some "P" }
    2 [("A", 110), ("B", 100)] c5OpenRes.1 10000

/-- The four-trade log of the C5 round trip. -/
def c5Log : List Trade :=
  c5OpenRes.2 ++ (c5Close.toOption.getD (Portfolio.init 0, [])).2

/-- The C5 entry trades and closing trades with their sizes evaluated:
both legs carry 50 shares. -/
def c5t1 : Trade := ⟨1, "A", Side.LONG, 50, 100, 0, some "P"⟩

/-- The C5 short entry leg. -/
def c5t2 : Trade := ⟨1, "B", Side.SHORT, 50, 100, 0, some "P"⟩

/-- The C5 long-leg closing sale at 110. -/
def c5t3 : Trade := ⟨2, "A", Side.SHORT, 50, 110, 0, some "P"⟩

/-- The C5 short-leg cover at 100. -/
def c5t4 : Trade := ⟨2, "B", Side.LONG, 50, 100, 0, some "P"⟩

/-- The pair position held after the C5 open. -/
def c5PairAfterOpen : PairPosition :=
  ⟨"P", ⟨"A", 50, 100, 100, 0⟩, ⟨"B", -50, 100, 100, 0⟩, 1, 1⟩

/-- The portfolio after the C5 open: the long leg cost 5000 and the
short leg credits 5000, leaving cash unchanged. -/
def c5PfAfterOpen : Portfolio := ⟨100000, [], [("P", c5PairAfterOpen)], 0⟩

/-- The portfolio after the C5 close: selling the long at 110 brings
5500, covering the short costs 5000. -/
def c5PfFinal : Portfolio := ⟨100500, [], [], 0⟩

theorem lookupA_setA_self {α : Type} (l : List (String × α)) (k : String)
    (v : α) : lookupA (setA l k v) k = some v := by
  induction l with
  | nil => simp [setA, lookupA]
  | cons h t ih =>
      by_cases hk : h.1 = k
      · simp [setA, hk, lookupA]
      · simp [setA, hk, lookupA, ih]

theorem lookupA_setA_ne {α : Type} (l : List (String × α)) (k k' : String)
    (v : α) (hne : k' ≠ k) : lookupA (setA l k v) k' = lookupA l k' := by
  have hne' : ¬(k = k') := fun hh => hne hh.symm
  induction l with
  | nil => simp [setA, lookupA, hne']
  | cons h t ih =>
      by_cases hk : h.1 = k
      · have hh1 : ¬(h.1 = k') := by rw [hk]; exact hne'
        simp [setA, hk, lookupA, hne', hh1]
      · simp only [setA, hk, if_neg hk, lookupA]
        rw [ih]

theorem lookupA_delA_self {α : Type} (l : List (String × α)) (k : String) :
    lookupA (delA l k) k = none := by
  induction l with
  | nil => simp [delA, lookupA]
  | cons h t ih =>
      by_cases hk : h.1 = k
      · simpa [delA, List.filter_cons, hk] using ih
      · simpa [delA, List.filter_cons, hk, lookupA] using ih

theorem lookupA_delA_ne {α : Type} (l : List (String × α)) (k k' : String)
    (hne : k' ≠ k) : lookupA (delA l k) k' = lookupA l k' := by
  induction l with
  | nil => simp [delA, lookupA]
  | cons h t ih =>
      by_cases hk : h.1 = k
      · have hh1 : ¬(h.1 = k') := by rw [hk]; exact fun hh => hne hh.symm
        simp only [lookupA, if_neg hh1]
        simpa [delA, List.filter_cons, hk] using ih
      · by_cases hk' : h.1 = k'
        · simp [delA, List.filter_cons, hk, lookupA, hk', hne]
        · simp only [lookupA, if_neg hk']
          simpa [delA, List.filter_cons, hk, lookupA, hk'] using ih

theorem mem_delA {α : Type} (l : List (String × α)) (k : String)
    (kv : String × α) (h : kv ∈ delA l k) : kv ∈ l :=
  List.mem_of_mem_filter h

theorem mem_setA {α : Type} (l : List (String × α)) (k : String) (v : α)
    (kv : String × α) (h : kv ∈ setA l k v) : kv ∈ l ∨ kv = (k, v) := by
  induction l with
  | nil => simpa [setA] using h
  | cons hd t ih =>
      by_cases hk : hd.1 = k
      · simp [setA, hk] at h
        rcases h with h | h
        · exact Or.inr (by simp [h])
        · exact Or.inl (List.mem_cons_of_mem _ h)
      · simp [setA, hk] at h
        rcases h with h | h
        · exact Or.inl (by simp [h])
        · rcases ih h with h' | h'
          · exact Or.inl (List.mem_cons_of_mem _ h')
          · exact Or.inr h'

/-- Claim C1: for every PointInTimeDataFrame with reference date r,
get_data() returns exactly the rows of the underlying table whose date
is at most r; advance_to on a date strictly before r raises the
look-ahead error, while advance_to on a date at or after r succeeds and
returns a fresh view over the same table whose reference date is the
new date (the original view, being a value, is unchanged). -/
theorem C1_pit_no_lookahead (pit : PointInTimeDataFrame) (r : Row)
    (d1 d2 : ℤ) (h1 : d1 < pit.reference_date)
    (h2 : pit.reference_date ≤ d2) :
    (r ∈ pit.get_data ↔ r ∈ pit.df ∧ r.date ≤ pit.reference_date)
    ∧ pit.advance_to d1
        = .error (Err.lookAheadBias pit.reference_date d1)
    ∧ pit.advance_to d2 = .ok { df := pit.df, reference_date := d2 } := by
  refine ⟨?_, ?_, ?_⟩
  · simp [PointInTimeDataFrame.get_data, List.mem_filter]
  · simp [PointInTimeDataFrame.advance_to, h1]
  · simp [PointInTimeDataFrame.advance_to, not_lt.mpr h2]

theorem C1_pit_no_lookahead_witness :
    ((1 : ℤ) < 2 ∧ (2 : ℤ) ≤ 3)
    ∧ ((⟨"A", 1, 5⟩ : Row) ∈
        (⟨[⟨"A", 1, 5⟩, ⟨"A", 3, 6⟩], 2⟩ :
          PointInTimeDataFrame).get_data
      ↔ (⟨"A", 1, 5⟩ : Row) ∈ [(⟨"A", 1, 5⟩ : Row), ⟨"A", 3, 6⟩]
          ∧ (1 : ℤ) ≤ 2)
    ∧ (⟨[⟨"A", 1, 5⟩, ⟨"A", 3, 6⟩], 2⟩ :
        PointInTimeDataFrame).advance_to 1 = .error (Err.lookAheadBias 2 1)
    ∧ (⟨[⟨"A", 1, 5⟩, ⟨"A", 3, 6⟩], 2⟩ :
        PointInTimeDataFrame).advance_to 3
      = .ok ⟨[⟨"A", 1, 5⟩, ⟨"A", 3, 6⟩], 3⟩ :=
  ⟨⟨by norm_num, by norm_num⟩,
    C1_pit_no_lookahead ⟨[⟨"A", 1, 5⟩, ⟨"A", 3, 6⟩], 2⟩ ⟨"A", 1, 5⟩ 1 3
      (by norm_num) (by norm_num)⟩

/-- Claim C3: Position.add_shares follows the four-row rule table.
Flat: set shares = s, avg = price, return 0.  Same sign: shares += s,
avg becomes the quantity-weighted average, return 0.  Opposite sign
with size at most the held size: return the partial-close P&L (long:
size times price minus avg, short: size times avg minus price).
Opposite sign exceeding the held size: realize the full-close amount
and reopen the excess at avg = price.  And whenever a non-flat position
returns to exactly zero shares, the average entry price resets to 0. -/
theorem C3_add_shares_rule_table (p : Position) (s price : ℚ) :
    (p.shares = 0 →
      (p.add_shares s price).1.shares = s
      ∧ (p.add_shares s price).1.avg_entry_price = price
      ∧ (p.add_shares s price).2 = 0)
    ∧ ((0 < p.shares ∧ 0 < s) ∨ (p.shares < 0 ∧ s < 0) →
      (p.add_shares s price).1.shares = p.shares + s
      ∧ (p.add_shares s price).1.avg_entry_price
          = (p.shares * p.avg_entry_price + s * price) / (p.shares + s)
      ∧ (p.add_shares s price).2 = 0)
    ∧ ((0 < p.shares ∧ s < 0) ∨ (p.shares < 0 ∧ 0 < s) → |s| ≤ |p.shares| →
      (p.add_shares s price).2
        = (if 0 < p.shares then |s| * (price - p.avg_entry_price)
           else |s| * (p.avg_entry_price - price))
      ∧ (p.add_shares s price).1.shares = p.shares + s)
    ∧ ((0 < p.shares ∧ s < 0) ∨ (p.shares < 0 ∧ 0 < s) → |p.shares| < |s| →
      (p.add_shares s price).2
        = (if 0 < p.shares then |p.shares| * (price - p.avg_entry_price)
           else |p.shares| * (p.avg_entry_price - price))
      ∧ (p.add_shares s price).1.shares
          = (if 0 < s then |s| - |p.shares| else -(|s| - |p.shares|))
      ∧ (p.add_shares s price).1.avg_entry_price = price)
    ∧ (p.shares ≠ 0 → (p.add_shares s price).1.shares = 0 →
      (p.add_shares s price).1.avg_entry_price = 0) := by
  refine ⟨?_, ?_, ?_, ?_, ?_⟩
  · intro hz
    simp [Position.add_shares, hz]
  · intro hss
    have hz : p.shares ≠ 0 := by
      rcases hss with ⟨h, _⟩ | ⟨h, _⟩
      · exact ne_of_gt h
      · exact ne_of_lt h
    have hsum : p.shares + s ≠ 0 := by
      rcases hss with ⟨h1, h2⟩ | ⟨h1, h2⟩
      · exact ne_of_gt (by linarith)
      · exact ne_of_lt (by linarith)
    simp only [Position.add_shares, if_neg hz, if_pos hss,
      Position.cost_basis]
    simp [hsum]
  · intro hop hle
    have hz : p.shares ≠ 0 := by
      rcases hop with ⟨h, _⟩ | ⟨h, _⟩
      · exact ne_of_gt h
      · exact ne_of_lt h
    have hnss : ¬((0 < p.shares ∧ 0 < s) ∨ (p.shares < 0 ∧ s < 0)) := by
      rcases hop with ⟨h1, h2⟩ | ⟨h1, h2⟩ <;>
        rintro (⟨a, b⟩ | ⟨a, b⟩) <;> linarith
    have hmin : min |s| |p.shares| = |s| := min_eq_left hle
    simp only [Position.add_shares, if_neg hz, if_neg hnss, hmin,
      sub_self, lt_self_iff_false, if_false]
    simp
  · intro hop hlt
    have hz : p.shares ≠ 0 := by
      rcases hop with ⟨h, _⟩ | ⟨h, _⟩
      · exact ne_of_gt h
      · exact ne_of_lt h
    have hnss : ¬((0 < p.shares ∧ 0 < s) ∨ (p.shares < 0 ∧ s < 0)) := by
      rcases hop with ⟨h1, h2⟩ | ⟨h1, h2⟩ <;>
        rintro (⟨a, b⟩ | ⟨a, b⟩) <;> linarith
    have hmin : min |s| |p.shares| = |p.shares| := min_eq_right hlt.le
    have hrem : 0 < |s| - |p.shares| := sub_pos.mpr hlt
    simp only [Position.add_shares, if_neg hz, if_neg hnss, hmin]
    rw [if_pos hrem]
    exact ⟨rfl, rfl, rfl⟩
  · intro hz hsh0
    by_cases hc2 : (0 < p.shares ∧ 0 < s) ∨ (p.shares < 0 ∧ s < 0)
    · simp only [Position.add_shares, if_neg hz, if_pos hc2] at hsh0 ⊢
      simp only [ne_eq, hsh0, not_true_eq_false, if_false]
    · by_cases hc3 : 0 < |s| - min |s| |p.shares|
      · exfalso
        simp only [Position.add_shares, if_neg hz, if_neg hc2,
          if_pos hc3] at hsh0
        split_ifs at hsh0 <;> linarith
      · simp only [Position.add_shares, if_neg hz, if_neg hc2,
          if_neg hc3] at hsh0 ⊢
        simp [hsh0]

theorem C3_add_shares_rule_table_witness :
    ((0 : ℚ) < 2 ∧ (-1 : ℚ) < 0 ∧ |(-1 : ℚ)| ≤ |(2 : ℚ)|)
    ∧ ((Position.add_shares ⟨"A", 2, 10, 0, 0⟩ (-1) 14).2
        = (if (0 : ℚ) < 2 then |(-1 : ℚ)| * (14 - 10)
           else |(-1 : ℚ)| * (10 - 14))
      ∧ (Position.add_shares ⟨"A", 2, 10, 0, 0⟩ (-1) 14).1.shares
          = 2 + (-1)) :=
  ⟨⟨by norm_num, by norm_num, by norm_num⟩,
    (C3_add_shares_rule_table ⟨"A", 2, 10, 0, 0⟩ (-1) 14).2.2.1
      (Or.inl ⟨by norm_num, by norm_num⟩) (by norm_num)⟩

/-- Claim C4: Portfolio.execute_trade raises InsufficientCapital iff
the trade is LONG and shares*price + commission exceeds cash; on a
raise the portfolio is unchanged; on success cash moves by minus
(notional + commission) for LONG and plus (notional - commission) for
SHORT, the symbol's position is updated through add_shares with the
signed shares (and dropped when flat), and the cumulative commission
grows by the trade's commission.  A SHORT trade never raises. -/
theorem C4_execute_trade (pf : Portfolio) (t : Trade) :
    ((pf.execute_trade t).2.2 ≠ none
      ↔ t.side = Side.LONG ∧ pf.cash < t.shares * t.price + t.commission)
    ∧ ((pf.execute_trade t).2.2 ≠ none → (pf.execute_trade t).1 = pf)
    ∧ (t.side = Side.SHORT → (pf.execute_trade t).2.2 = none)
    ∧ ((pf.execute_trade t).2.2 = none →
        (pf.execute_trade t).1.cash
          = (if t.side = Side.LONG
             then pf.cash - (t.shares * t.price + t.commission)
             else pf.cash + t.shares * t.price - t.commission)
        ∧ (pf.execute_trade t).2.1
            = ((tradePosBefore pf t).add_shares t.signed_shares t.price).2
        ∧ lookupA (pf.execute_trade t).1.positions t.symbol
            = (if ((tradePosBefore pf t).add_shares t.signed_shares
                  t.price).1.shares = 0 then none
               else some ((tradePosBefore pf t).add_shares t.signed_shares
                  t.price).1)
        ∧ (pf.execute_trade t).1.cumulative_commission
            = pf.cumulative_commission + t.commission) := by
  by_cases hc : t.side = Side.LONG ∧ pf.cash < t.total_cost
  · refine ⟨?_, ?_, ?_, ?_⟩
    · simp only [Portfolio.execute_trade, if_pos hc]
      simpa [Trade.total_cost, Trade.notional] using hc
    · intro _
      simp only [Portfolio.execute_trade, if_pos hc]
    · intro hs
      rw [hs] at hc
      exact absurd hc.1 (by simp)
    · intro hnone
      simp only [Portfolio.execute_trade, if_pos hc] at hnone
      exact absurd hnone (by simp)
  · have hcond : ¬(t.side = Side.LONG ∧ pf.cash < t.shares * t.price
        + t.commission) := by
      simpa [Trade.total_cost, Trade.notional] using hc
    refine ⟨?_, ?_, ?_, ?_⟩
    · simp only [Portfolio.execute_trade, if_neg hc]
      simpa using hcond
    · intro hne
      simp only [Portfolio.execute_trade, if_neg hc] at hne
      exact absurd rfl hne
    · intro _
      simp only [Portfolio.execute_trade, if_neg hc]
    · intro _
      cases hl : lookupA pf.positions t.symbol with
      | none =>
          simp only [Portfolio.execute_trade, if_neg hc, hl,
            tradePosBefore, Option.getD]
          refine ⟨by simp [Trade.total_cost, Trade.notional], by simp,
            ?_, by simp⟩
          split_ifs with hflat
          · exact lookupA_delA_self _ _
          · exact lookupA_setA_self _ _ _
      | some pos =>
          simp only [Portfolio.execute_trade, if_neg hc, hl,
            tradePosBefore, Option.getD]
          refine ⟨by simp [Trade.total_cost, Trade.notional], by simp,
            ?_, by simp⟩
          split_ifs with hflat
          · exact lookupA_delA_self _ _
          · exact lookupA_setA_self _ _ _

theorem C4_execute_trade_witness :
    (((Portfolio.init 1000).execute_trade
        ⟨1, "A", Side.LONG, 5, 10, 0, none⟩).2.2 = none)
    ∧ (((Portfolio.init 1000).execute_trade
        ⟨1, "A", Side.LONG, 5, 10, 0, none⟩).1.cash
      = (if Side.LONG = Side.LONG then (1000 : ℚ) - (5 * 10 + 0)
         else 1000 + 5 * 10 - 0)) :=
  ⟨by norm_num [Portfolio.execute_trade, Portfolio.init, Trade.total_cost,
      Trade.notional],
    ((C4_execute_trade (Portfolio.init 1000)
      ⟨1, "A", Side.LONG, 5, 10, 0, none⟩).2.2.2
      (by norm_num [Portfolio.execute_trade, Portfolio.init,
        Trade.total_cost, Trade.notional])).1⟩

/-- Claim C8: a successful (or failed) execute_trade call never leaves
a flat Position in the per-symbol positions mapping — a position driven
to exactly zero shares is removed before the call returns — and the
invariant holds along every sequence of trades from the initial, empty
portfolio. -/
theorem C8_no_flat_positions :
    (∀ (pf : Portfolio) (t : Trade), NoFlat pf →
      NoFlat (pf.execute_trade t).1)
    ∧ ∀ (c : ℚ) (ts : List Trade), NoFlat (runTrades (Portfolio.init c) ts)
    := by
  have step : ∀ (pf : Portfolio) (t : Trade), NoFlat pf →
      NoFlat (pf.execute_trade t).1 := by
    intro pf t hnf
    by_cases hc : t.side = Side.LONG ∧ pf.cash < t.total_cost
    · simpa [Portfolio.execute_trade, if_pos hc] using hnf
    · intro kv hkv
      simp only [Portfolio.execute_trade, if_neg hc] at hkv
      split_ifs at hkv with hflat
      · exact hnf kv (mem_delA _ _ _ hkv)
      · rcases mem_setA _ _ _ _ hkv with h | h
        · exact hnf kv h
        · rw [h]
          exact hflat
  refine ⟨step, ?_⟩
  intro c ts
  have general : ∀ (ts : List Trade) (pf : Portfolio), NoFlat pf →
      NoFlat (runTrades pf ts) := by
    intro ts
    induction ts with
    | nil => intro pf h; exact h
    | cons t rest ih =>
        intro pf h
        exact ih _ (step pf t h)
  exact general ts (Portfolio.init c) (by intro kv hkv; simp [Portfolio.init] at hkv)

theorem C8_no_flat_positions_witness :
    NoFlat ((Portfolio.init 1000).execute_trade
      ⟨1, "A", Side.LONG, 5, 10, 0, none⟩).1 :=
  C8_no_flat_positions.1 (Portfolio.init 1000)
    ⟨1, "A", Side.LONG, 5, 10, 0, none⟩
    (by intro kv hkv; simp [Portfolio.init] at hkv)

/-- Claim C10: Portfolio.open_pair raises exactly when the long leg's
total cost exceeds cash — the presence of an existing pair under the
same pair_id is irrelevant, and on success the stored PairPosition for
that id is the one freshly built from the two trades (silently
replacing any prior pair), while cash moves by minus the long leg's
total cost plus the short leg's proceeds (notional minus commission),
credited unconditionally. -/
theorem C10_open_pair_replaces (pf : Portfolio) (pid : String)
    (lt st : Trade) (hr : ℚ) (ed : ℤ) :
    (pf.open_pair pid lt st hr ed
        = .error (Err.insufficientCapital lt.total_cost pf.cash lt.symbol)
      ↔ pf.cash < lt.total_cost)
    ∧ (lt.total_cost ≤ pf.cash →
      ∃ pf1, pf.open_pair pid lt st hr ed = .ok pf1
        ∧ lookupA pf1.pair_positions pid = some
            { pair_id := pid
              long_position :=
                { symbol := lt.symbol, shares := lt.shares,
                  avg_entry_price := lt.price, current_price := lt.price,
                  realized_pnl := 0 }
              short_position :=
                { symbol := st.symbol, shares := -st.shares,
                  avg_entry_price := st.price, current_price := st.price,
                  realized_pnl := 0 }
              hedge_ratio := hr
              entry_date := ed }
        ∧ pf1.cash = pf.cash - lt.total_cost + st.notional - st.commission
        ∧ pf1.positions = pf.positions) := by
  constructor
  · by_cases h : pf.cash < lt.total_cost
    · simp [Portfolio.open_pair, h]
    · simp [Portfolio.open_pair, h]
  · intro hle
    have h : ¬pf.cash < lt.total_cost := not_lt.mpr hle
    refine ⟨{ pf with
        pair_positions := setA pf.pair_positions pid
          { pair_id := pid
            long_position :=
              { symbol := lt.symbol, shares := lt.shares,
                avg_entry_price := lt.price, current_price := lt.price,
                realized_pnl := 0 }
            short_position :=
              { symbol := st.symbol, shares := -st.shares,
                avg_entry_price := st.price, current_price := st.price,
                realized_pnl := 0 }
            hedge_ratio := hr
            entry_date := ed }
        cash := pf.cash - lt.total_cost + st.notional - st.commission
        cumulative_commission := pf.cumulative_commission
          + lt.commission + st.commission }, ?_, ?_, rfl, rfl⟩
    · simp only [Portfolio.open_pair, if_neg h]
    · exact lookupA_setA_self _ _ _

theorem C10_open_pair_replaces_witness :
    ((⟨1, "A", Side.LONG, 5, 10, 0, some "P"⟩ : Trade).total_cost
      ≤ (1000 : ℚ))
    ∧ ∃ pf1,
      (⟨1000, [],
        [("P", ⟨"P", ⟨"X", 1, 1, 1, 0⟩, ⟨"Y", -1, 1, 1, 0⟩, 1, 0⟩)], 0⟩ :
          Portfolio).open_pair "P" ⟨1, "A", Side.LONG, 5, 10, 0, some "P"⟩
          ⟨1, "B", Side.SHORT, 5, 10, 0, some "P"⟩ 1 1 = .ok pf1
        ∧ lookupA pf1.pair_positions "P" = some
            ⟨"P", ⟨"A", 5, 10, 10, 0⟩, ⟨"B", -5, 10, 10, 0⟩, 1, 1⟩
        ∧ pf1.cash = 1000
            - (⟨1, "A", Side.LONG, 5, 10, 0, some "P"⟩ : Trade).total_cost
            + (⟨1, "B", Side.SHORT, 5, 10, 0, some "P"⟩ : Trade).notional
            - 0
        ∧ pf1.positions = [] :=
  ⟨by norm_num [Trade.total_cost, Trade.notional],
    (C10_open_pair_replaces
      ⟨1000, [], [("P", ⟨"P", ⟨"X", 1, 1, 1, 0⟩, ⟨"Y", -1, 1, 1, 0⟩, 1, 0⟩)],
        0⟩ "P" ⟨1, "A", Side.LONG, 5, 10, 0, some "P"⟩
      ⟨1, "B", Side.SHORT, 5, 10, 0, some "P"⟩ 1 1).2
      (by norm_num [Trade.total_cost, Trade.notional])⟩

/-- Claim C6 counterexample: at the default parameters, 10 shares and
price 100 (a positive price), the source commission is 0.35 — the
minimum applied after the exchange fee is added — while the spec's
formula, which applies the minimum to the per-share rate component
before adding the exchange fee, gives 0.353.  The claim's equation is
false at this input. -/
theorem C6_tiered_counterexample :
    (0 : ℚ) < 100
    ∧ ibkrDefault.calculate 10 100 = 7 / 20
    ∧ ibkrSpecFormula ibkrDefault 10 100 = 353 / 1000
    ∧ ibkrDefault.calculate 10 100 ≠ ibkrSpecFormula ibkrDefault 10 100 := by
  have habs : |(10 : ℚ)| = 10 := abs_of_nonneg (by norm_num)
  refine ⟨by norm_num, ?_, ?_, ?_⟩
  · simp only [IBKRTieredCommission.calculate, ibkrDefault, habs]
    rw [max_def, min_def]
    norm_num
  · simp only [ibkrSpecFormula, ibkrDefault, habs]
    rw [max_def, max_def, min_def]
    norm_num
  · simp only [IBKRTieredCommission.calculate, ibkrSpecFormula,
      ibkrDefault, habs]
    rw [max_def, max_def, max_def, min_def, min_def]
    norm_num

/-- Claim C6 amended: for every parameter set with a nonnegative
minimum and every shares count and price, the IBKR tiered commission
equals clamp( max(min, rate*abs(s) + exchange_fee*abs(s)), 0,
max_pct*abs(s)*p ) — the minimum is applied after the exchange fee is
added to the per-share rate component — and the maximum-percentage cap
may produce a fee below the minimum, as it does at the defaults for 10
shares at price 1. -/
theorem C6_tiered_amended (m : IBKRTieredCommission) (s p : ℚ)
    (hmin : 0 ≤ m.minimum) :
    m.calculate s p = ibkrAmendedFormula m s p
    ∧ ibkrDefault.calculate 10 1 = 1 / 10
    ∧ ibkrDefault.calculate 10 1 < ibkrDefault.minimum := by
  have habs : |(10 : ℚ)| = 10 := abs_of_nonneg (by norm_num)
  refine ⟨?_, ?_, ?_⟩
  · have h0 : (0 : ℚ) ≤ max m.minimum
        (m.rate_per_share * |s| + m.exchange_fee * |s|) :=
      le_trans hmin (le_max_left _ _)
    simp only [ibkrAmendedFormula, max_eq_left h0,
      IBKRTieredCommission.calculate]
    rw [max_comm]
    ring_nf
  · simp only [IBKRTieredCommission.calculate, ibkrDefault, habs]
    rw [max_def, min_def]
    norm_num
  · simp only [IBKRTieredCommission.calculate, ibkrDefault, habs]
    rw [max_def, min_def]
    norm_num

theorem C6_tiered_amended_witness :
    ((0 : ℚ) ≤ ibkrDefault.minimum)
    ∧ ibkrDefault.calculate 10 100 = ibkrAmendedFormula ibkrDefault 10 100
    ∧ ibkrDefault.calculate 10 1 < ibkrDefault.minimum :=
  ⟨by norm_num [ibkrDefault],
    (C6_tiered_amended ibkrDefault 10 100 (by norm_num [ibkrDefault])).1,
    (C6_tiered_amended ibkrDefault 10 100
      (by norm_num [ibkrDefault])).2.2⟩

/-- Claim C7 counterexample: a one-point equity curve is below
MIN_TRADING_DAYS_FOR_METRICS, yet with a one-trade log carrying
commission 5 the returned metrics have num_trades = 1 and
total_commission = 5 — not zero as the claim states for all fields. -/
theorem C7_short_curve_counterexample :
    [((1 : ℤ), (1000 : ℚ))].length < MIN_TRADING_DAYS_FOR_METRICS
    ∧ (calculate_metrics (fun _ _ _ => emptyMetrics 0 0) [(1, 1000)]
        [⟨1, "A", Side.LONG, 1, 10, 5, none⟩] 1000).num_trades = 1
    ∧ (calculate_metrics (fun _ _ _ => emptyMetrics 0 0) [(1, 1000)]
        [⟨1, "A", Side.LONG, 1, 10, 5, none⟩] 1000).total_commission = 5
    ∧ (1 : ℕ) ≠ 0 ∧ (5 : ℚ) ≠ 0 := by
  refine ⟨by norm_num [MIN_TRADING_DAYS_FOR_METRICS], ?_, ?_,
    by norm_num, by norm_num⟩
  · simp [calculate_metrics, MIN_TRADING_DAYS_FOR_METRICS, emptyMetrics,
      tradeLogNumTrades]
  · simp [calculate_metrics, MIN_TRADING_DAYS_FOR_METRICS, emptyMetrics,
      tradeLogTotalCommission]

/-- Claim C7 amended: for every equity curve with fewer than
MIN_TRADING_DAYS_FOR_METRICS = 20 points, calculate_metrics does not
raise and returns the empty metrics: every metric field
(total_return, annualized_return, sharpe_ratio, max_drawdown,
max_drawdown_duration, volatility, win_rate, profit_factor,
avg_trade_return) is zero, while num_trades and total_commission carry
the trade log's trade count and summed commission.  This holds for
every possible long-curve branch. -/
theorem C7_short_curve_metrics
    (longBranch : List (ℤ × ℚ) → List Trade → ℚ → PerformanceMetrics)
    (curve : List (ℤ × ℚ)) (log : List Trade) (cap : ℚ)
    (h : curve.length < MIN_TRADING_DAYS_FOR_METRICS) :
    calculate_metrics longBranch curve log cap
      = emptyMetrics (tradeLogNumTrades log) (tradeLogTotalCommission log)
    ∧ (calculate_metrics longBranch curve log cap).total_return = 0
    ∧ (calculate_metrics longBranch curve log cap).annualized_return = 0
    ∧ (calculate_metrics longBranch curve log cap).sharpe_ratio = 0
    ∧ (calculate_metrics longBranch curve log cap).max_drawdown = 0
    ∧ (calculate_metrics longBranch curve log cap).max_drawdown_duration = 0
    ∧ (calculate_metrics longBranch curve log cap).volatility = 0
    ∧ (calculate_metrics longBranch curve log cap).win_rate = 0
    ∧ (calculate_metrics longBranch curve log cap).profit_factor = 0
    ∧ (calculate_metrics longBranch curve log cap).avg_trade_return = 0
    ∧ (calculate_metrics longBranch curve log cap).num_trades = log.length
    ∧ (calculate_metrics longBranch curve log cap).total_commission
        = (log.map (fun t => t.commission)).sum := by
  simp [calculate_metrics, h, emptyMetrics, tradeLogNumTrades,
    tradeLogTotalCommission]

theorem C7_short_curve_metrics_witness :
    ([((1 : ℤ), (1000 : ℚ))].length < MIN_TRADING_DAYS_FOR_METRICS)
    ∧ calculate_metrics (fun _ _ _ => emptyMetrics 0 0) [(1, 1000)]
        [⟨1, "A", Side.LONG, 1, 10, 5, none⟩] 1000
      = emptyMetrics
          (tradeLogNumTrades [⟨1, "A", Side.LONG, 1, 10, 5, none⟩])
          (tradeLogTotalCommission [⟨1, "A", Side.LONG, 1, 10, 5, none⟩]) :=
  ⟨by norm_num [MIN_TRADING_DAYS_FOR_METRICS],
    (C7_short_curve_metrics (fun _ _ _ => emptyMetrics 0 0) [(1, 1000)]
      [⟨1, "A", Side.LONG, 1, 10, 5, none⟩] 1000
      (by norm_num [MIN_TRADING_DAYS_FOR_METRICS])).1⟩

/-- Claim C2, demonstrated false on the code: on a two-day table for
symbol A with bars (day 1, 100) and (day 2, 110) and a PIT whose
reference date starts at day 1, the runner hands execution the price
vector A = 100 on day 2 — the previous day's bar — because the loop
advances the PIT only after processing the bar, while the bar dated
day 2 carries price 110.  The claim (and the runner's own module
docstring, which advances the PIT before computing prices) says the
day-2 trade price is 110. -/
theorem C2_execution_prices_lag :
    runnerPriceVectors [⟨"A", 1, 100⟩, ⟨"A", 2, 110⟩] 1 2 1
      = .ok [(1, [("A", 100)]), (2, [("A", 100)])]
    ∧ (⟨"A", 2, 110⟩ : Row).price = 110
    ∧ ((100 : ℚ) ≠ 110) :=
  ⟨rfl, rfl, by decide⟩

theorem c5_open_eval : c5Open = .ok (c5PfAfterOpen, [c5t1, c5t2]) := by
  norm_num [c5Open, execute_pair_signal, lookupA, PairSignal.get_pair_id,
    Portfolio.open_pair, Portfolio.init, Trade.total_cost, Trade.notional,
    c5t1, c5t2, c5PfAfterOpen, c5PairAfterOpen, setA]

theorem c5_open_res_eval : c5OpenRes = (c5PfAfterOpen, [c5t1, c5t2]) := by
  rw [c5OpenRes, c5_open_eval]; rfl

theorem c5_close_eval : c5Close = .ok (c5PfFinal, [c5t3, c5t4]) := by
  rw [c5Close, c5_open_res_eval]
  norm_num [execute_pair_signal, lookupA, PairSignal.get_pair_id,
    Portfolio.close_pair, Position.add_shares, Position.cost_basis,
    Trade.total_cost, Trade.notional, c5t3, c5t4, c5PfFinal,
    c5PfAfterOpen, c5PairAfterOpen, delA, abs_of_nonneg]
  simp
  norm_num

theorem c5_log_eval : c5Log = [c5t1, c5t2, c5t3, c5t4] := by
  rw [c5Log, c5_open_res_eval, c5_close_eval]; rfl

theorem c5_match_eval : match_round_trips c5Log none false none
    = [⟨"P", 1, some 2, "A", "B", 100, 100, 110, 100, 50, 50, 500, 1,
        1 / 20, 0, false⟩] := by
  rw [c5_log_eval]
  simp [match_round_trips, groupByPair, addToGroup, buildRoundTrip,
    sortTradesByDate, insertTradeByDate, replayTrades, replayStep,
    ReplayPos.initial, lookupA, setA, finishRoundTrip, fallbackShares,
    pyAnd, c5t1, c5t2, c5t3, c5t4]
  norm_num

/-- Claim C5: an OPEN pair signal with both prices present sizes the
legs as long_notional = capital_per_pair / (1 + hedge_ratio),
short_notional = long_notional * hedge_ratio, long_shares =
long_notional / long_price, short_shares = short_notional /
short_price, and on success returns exactly the long and short trades
so sized; and in the concrete scenario (capital_per_pair 10000, hedge
ratio 1, entry prices 100/100, exit prices 110/100, zero commission)
both legs carry 50 shares and the matched round trip has pnl 500 and
return_pct 0.05 = 1/20. -/
theorem C5_open_sizing_and_round_trip :
    (∀ (cm : ℚ → ℚ → ℚ) (sig : PairSignal) (d : ℤ)
        (prices : List (String × ℚ)) (pf : Portfolio) (cap lp sp : ℚ)
        (pf1 : Portfolio) (ts : List Trade),
        sig.signal_type = SignalType.OPEN_PAIR →
        lookupA prices sig.long_symbol = some lp →
        lookupA prices sig.short_symbol = some sp →
        execute_pair_signal cm sig d prices pf cap = .ok (pf1, ts) →
        ts = [{ date := d, symbol := sig.long_symbol, side := Side.LONG,
                shares := cap / (1 + sig.hedge_ratio) / lp, price := lp,
                commission := cm (cap / (1 + sig.hedge_ratio) / lp) lp,
                pair_id := some sig.get_pair_id },
              { date := d, symbol := sig.short_symbol, side := Side.SHORT,
                shares := cap / (1 + sig.hedge_ratio) * sig.hedge_ratio
                  / sp,
                price := sp,
                commission := cm (cap / (1 + sig.hedge_ratio)
                  * sig.hedge_ratio / sp) sp,
                pair_id := some sig.get_pair_id }])
    ∧ c5Open = .ok (c5PfAfterOpen, [c5t1, c5t2])
    ∧ c5Close = .ok (c5PfFinal, [c5t3, c5t4])
    ∧ c5t1.shares = 50 ∧ c5t2.shares = 50
    ∧ match_round_trips c5Log none false none
        = [⟨"P", 1, some 2, "A", "B", 100, 100, 110, 100, 50, 50, 500, 1,
            1 / 20, 0, false⟩]
    ∧ (500 : ℚ) / 10000 = 1 / 20 := by
  refine ⟨?_, c5_open_eval, c5_close_eval, rfl, rfl, c5_match_eval,
    by norm_num⟩
  intro cm sig d prices pf cap lp sp pf1 ts hty hlp hsp hex
  simp only [execute_pair_signal, hlp, hsp, hty] at hex
  split at hex
  · exact absurd hex (by simp)
  · simp only [Except.ok.injEq, Prod.mk.injEq] at hex
    exact hex.2.symm

theorem C5_open_sizing_and_round_trip_witness :
    ((⟨SignalType.OPEN_PAIR, "A", "B", 1, some "P"⟩ :
        PairSignal).signal_type = SignalType.OPEN_PAIR)
    ∧ [c5t1, c5t2]
      = [{ date := 1, symbol := "A", side := Side.LONG,
           shares := (10000 : ℚ) / (1 + 1) / 100, price := 100,
           commission := 0, pair_id := some "P" },
         { date := 1, symbol := "B", side := Side.SHORT,
           shares := (10000 : ℚ) / (1 + 1) * 1 / 100, price := 100,
           commission := 0, pair_id := some "P" }] :=
  ⟨rfl,
    C5_open_sizing_and_round_trip.1 (fun _ _ => 0)
      ⟨SignalType.OPEN_PAIR, "A", "B", 1, some "P"⟩ 1
      [("A", 100), ("B", 100)] (Portfolio.init 100000) 10000 100 100
      c5PfAfterOpen [c5t1, c5t2] rfl rfl rfl c5_open_eval⟩

theorem execute_trade_lookup_other (pf : Portfolio) (t : Trade)
    (s : String) (hs : s ≠ t.symbol) :
    lookupA (pf.execute_trade t).1.positions s = lookupA pf.positions s := by
  by_cases hc : t.side = Side.LONG ∧ pf.cash < t.total_cost
  · simp [Portfolio.execute_trade, if_pos hc]
  · simp only [Portfolio.execute_trade, if_neg hc]
    split_ifs with hflat
    · exact lookupA_delA_ne _ _ _ hs
    · exact lookupA_setA_ne _ _ _ _ hs

theorem weightTradeSpec_symbol (cm : ℚ → ℚ → ℚ) (d : ℤ)
    (prices : List (String × ℚ)) (e0 : ℚ)
    (positions0 : List (String × Position)) (sw : String × ℚ) (t : Trade)
    (h : weightTradeSpec cm d prices e0 positions0 sw = some t) :
    t.symbol = sw.1 := by
  simp only [weightTradeSpec] at h
  split_ifs at h <;> cases h <;> rfl

theorem weightStep_spec (cm : ℚ → ℚ → ℚ) (e0 : ℚ) (d : ℤ)
    (prices : List (String × ℚ)) (positions0 : List (String × Position))
    (pf : Portfolio) (sym : String) (w : ℚ)
    (hagree : lookupA pf.positions sym = lookupA positions0 sym) :
    (weightTradeSpec cm d prices e0 positions0 (sym, w) = none →
      weightStep cm e0 d prices pf sym w = (pf, none, none))
    ∧ (∀ t, weightTradeSpec cm d prices e0 positions0 (sym, w) = some t →
      weightStep cm e0 d prices pf sym w
        = (match (pf.execute_trade t).2.2 with
           | some e => ((pf.execute_trade t).1, none, some e)
           | none => ((pf.execute_trade t).1, some t, none))) := by
  by_cases h : |e0 * w / (lookupA prices sym).getD 0
      - (match lookupA positions0 sym with
          | some p => p.shares
          | none => 0)| < 1 / 100
  · constructor
    · intro _
      simp only [weightStep, hagree]
      rw [if_pos h]
    · intro t ht
      simp only [weightTradeSpec] at ht
      rw [if_pos h] at ht
      exact absurd ht (by simp)
  · constructor
    · intro hn
      simp only [weightTradeSpec] at hn
      rw [if_neg h] at hn
      exact absurd hn (by simp)
    · intro t ht
      simp only [weightTradeSpec] at ht
      rw [if_neg h] at ht
      simp only [Option.some.injEq] at ht
      simp only [weightStep, hagree]
      rw [if_neg h, ← ht]

set_option maxHeartbeats 1000000 in
theorem weightLoop_spec (cm : ℚ → ℚ → ℚ) (e0 : ℚ) (d : ℤ)
    (prices : List (String × ℚ)) (positions0 : List (String × Position)) :
    ∀ (ws : List (String × ℚ)) (pf : Portfolio),
    (∀ sw ∈ ws, lookupA pf.positions sw.1 = lookupA positions0 sw.1) →
    (ws.map Prod.fst).Nodup →
    (weightLoop cm e0 d prices pf ws).2.2 = none →
    (weightLoop cm e0 d prices pf ws).2.1
      = ws.filterMap (weightTradeSpec cm d prices e0 positions0) := by
  intro ws
  induction ws with
  | nil => intro pf _ _ _; rfl
  | cons hd rest ih =>
      obtain ⟨sym, w⟩ := hd
      intro pf hpos hnd herr
      have hcur : lookupA pf.positions sym = lookupA positions0 sym :=
        hpos (sym, w) (List.mem_cons_self _ rest)
      have hrest : ∀ sw ∈ rest, lookupA pf.positions sw.1
          = lookupA positions0 sw.1 :=
        fun sw hsw => hpos sw (List.mem_cons_of_mem _ hsw)
      have hndr : (rest.map Prod.fst).Nodup := (List.nodup_cons.mp hnd).2
      have hhd : sym ∉ rest.map Prod.fst := (List.nodup_cons.mp hnd).1
      obtain ⟨hskipEq, htrdEq⟩ :=
        weightStep_spec cm e0 d prices positions0 pf sym w hcur
      cases hspec : weightTradeSpec cm d prices e0 positions0 (sym, w) with
      | none =>
          simp only [weightLoop, hskipEq hspec] at herr ⊢
          simp only [List.filterMap_cons, hspec]
          rcases htl : (weightLoop cm e0 d prices pf rest).2.2 with _ | e
          · simp only [htl] at herr ⊢
            exact ih pf hrest hndr htl
          · simp [htl] at herr
      | some t =>
          have htsym : t.symbol = sym :=
            weightTradeSpec_symbol cm d prices e0 positions0 (sym, w) t
              hspec
          simp only [weightLoop, htrdEq t hspec] at herr ⊢
          rcases hres : (pf.execute_trade t).2.2 with _ | e
          · simp only [hres] at herr ⊢
            have hrest' : ∀ sw ∈ rest,
                lookupA (pf.execute_trade t).1.positions sw.1
                  = lookupA positions0 sw.1 := by
              intro sw hsw
              have hne : sw.1 ≠ t.symbol := by
                rw [htsym]
                intro hEq
                exact hhd (hEq ▸ List.mem_map_of_mem Prod.fst hsw)
              rw [execute_trade_lookup_other pf t sw.1 hne]
              exact hrest sw hsw
            rcases htl : (weightLoop cm e0 d prices
                (pf.execute_trade t).1 rest).2.2 with _ | e
            · simp only [htl] at herr ⊢
              simp only [List.filterMap_cons, hspec]
              rw [ih (pf.execute_trade t).1 hrest' hndr htl]
            · simp [htl] at herr
          · simp [hres] at herr

/-- Claim C9: execute_weight_signal validates every symbol of the
weight mapping against the price dict before executing anything, so a
missing price raises ExecutionError with the portfolio unchanged and no
trades emitted; and when no price is missing and no trade fails, the
emitted trades are exactly those computed per symbol from the single
equity snapshot and position map of the portfolio as it was before the
first trade of the signal. -/
theorem C9_weight_signal_atomic_validation (cm : ℚ → ℚ → ℚ)
    (weights : List (String × ℚ)) (d : ℤ) (prices : List (String × ℚ))
    (pf : Portfolio) :
    ((∃ sw ∈ weights, lookupA prices sw.1 = none) →
      ∃ s, lookupA prices s = none ∧ s ∈ weights.map Prod.fst
        ∧ execute_weight_signal cm weights d prices pf
            = (pf, [], some (Err.executionError s)))
    ∧ ((weights.map Prod.fst).Nodup →
      (∀ sw ∈ weights, (lookupA prices sw.1).isSome) →
      (execute_weight_signal cm weights d prices pf).2.2 = none →
      (execute_weight_signal cm weights d prices pf).2.1
        = weights.filterMap
            (weightTradeSpec cm d prices pf.equity pf.positions)) := by
  constructor
  · rintro ⟨sw, hmem, hnone⟩
    cases hf : weights.find? (fun x => (lookupA prices x.1).isNone) with
    | none =>
        exfalso
        have := List.find?_eq_none.mp hf sw hmem
        simp [hnone] at this
    | some fw =>
        refine ⟨fw.1, ?_, ?_, ?_⟩
        · have := List.find?_some hf
          simpa using this
        · exact List.mem_map_of_mem Prod.fst (List.mem_of_find?_eq_some hf)
        · simp [execute_weight_signal, hf]
  · intro hnd hall herr
    have hf : weights.find? (fun x => (lookupA prices x.1).isNone)
        = none := by
      apply List.find?_eq_none.mpr
      intro x hx
      have := hall x hx
      simp only [Option.isNone]
      cases hgx : lookupA prices x.1 with
      | none => rw [hgx] at this; simp at this
      | some v => simp
    simp only [execute_weight_signal, hf] at herr ⊢
    exact weightLoop_spec cm pf.equity d prices pf.positions weights pf
      (fun _ _ => rfl) hnd herr

theorem C9_weight_signal_atomic_validation_witness :
    ((([("A", (1 : ℚ))] : List (String × ℚ)).map Prod.fst).Nodup
    ∧ (execute_weight_signal (fun _ _ => 0) [("A", 1)] 1 [("A", 10)]
        (Portfolio.init 1000)).2.2 = none)
    ∧ (execute_weight_signal (fun _ _ => 0) [("A", 1)] 1 [("A", 10)]
        (Portfolio.init 1000)).2.1
      = ([("A", (1 : ℚ))] : List (String × ℚ)).filterMap
          (weightTradeSpec (fun _ _ => 0) 1 [("A", 10)]
            (Portfolio.init 1000).equity (Portfolio.init 1000).positions)
    := by
  have hnd : (([("A", (1 : ℚ))] : List (String × ℚ)).map Prod.fst).Nodup
    := by simp
  have herr : (execute_weight_signal (fun _ _ => 0) [("A", 1)] 1
      [("A", 10)] (Portfolio.init 1000)).2.2 = none := by
    norm_num [execute_weight_signal, weightLoop, weightStep, lookupA,
      Portfolio.equity, Portfolio.init, Portfolio.execute_trade,
      Position.add_shares, Trade.total_cost, Trade.notional,
      Trade.signed_shares, abs_of_nonneg, setA]
  refine ⟨⟨hnd, herr⟩, ?_⟩
  exact (C9_weight_signal_atomic_validation (fun _ _ => 0) [("A", 1)] 1
    [("A", 10)] (Portfolio.init 1000)).2 hnd
    (by intro sw hsw; simp at hsw; simp [hsw, lookupA]) herr

end PairTrading
